import Mathlib

/-!
Verification of the spacedevs REST client against its specification.

Rust strings are modelled as lists of characters (`Str`); Rust byte
indices coincide with character indices on the ASCII data exercised by
the properties below.  Fallible Rust functions returning
`Result<_, Box<dyn Error>>` are modelled with `Except` over a tagged
error type.  HTTP side effects are modelled by passing an explicit
`fetch` oracle and logging the URLs actually fetched.
-/

set_option maxHeartbeats 1000000
set_option synthInstance.maxHeartbeats 400000

namespace SpaceDevs

/-- Rust `String` / `&str`, modelled as a list of characters. -/
abbrev Str := List Char

/-- Conversion from a Lean string literal to the `Str` model. -/
def str (s : String) : Str := s.toList

/-- Rust `str::trim_start_matches('/')`: remove every leading `'/'`. -/
def trimStartSlashes (s : Str) : Str := s.dropWhile (· = '/')

/-- Rust `str::trim_end_matches('/')`: remove every trailing `'/'`. -/
def trimEndSlashes (s : Str) : Str := (s.reverse.dropWhile (· = '/')).reverse

/-- `RESTClient::build_url` (rest_client.rs lines 58-64):
`format!("{}/{}", base_url.trim_end_matches('/'), endpoint.trim_start_matches('/'))`. -/
def restBuildUrl (base endpoint : Str) : Str :=
  trimEndSlashes base ++ '/' :: trimStartSlashes endpoint

/-- `SpaceDevsClient::build_url` (client.rs lines 57-59):
`format!("{}/{}", self.base_url, endpoint.trim_start_matches('/'))` —
the base URL is used unmodified. -/
def spaceDevsBuildUrl (base endpoint : Str) : Str :=
  base ++ '/' :: trimStartSlashes endpoint

/-- `APIExecutor::split_url` helper: `str::rfind('/')`, the index of the
last `'/'` in the string, if any. -/
def rfindSlash : Str → Option Nat
  | [] => none
  | c :: rest =>
    match rfindSlash rest with
    | some i => some (i + 1)
    | none => if c = '/' then some 0 else none

/-- `APIExecutor::split_url` (executor.rs lines 217-225): split at the
last `'/'` into `(url[..i], url[i+1..])`, or `(url, "")` when there is
no slash. -/
def splitUrl (url : Str) : Str × Str :=
  match rfindSlash url with
  | some i => (url.take i, url.drop (i + 1))
  | none => (url, [])

/- ### Lemmas about dropWhile / trimming -/

theorem dropWhile_head_not (p : Char → Bool) (s : Str) :
    ∀ c rest, s.dropWhile p = c :: rest → p c = false := by
  induction s with
  | nil => intro c rest h; simp [List.dropWhile] at h
  | cons a as ih =>
    intro c rest h
    by_cases ha : p a
    · rw [List.dropWhile_cons_of_pos ha] at h
      exact ih c rest h
    · rw [List.dropWhile_cons_of_neg ha] at h
      cases h; simpa using ha

theorem trimStartSlashes_no_lead (s : Str) :
    ∀ c rest, trimStartSlashes s = c :: rest → c ≠ '/' := by
  intro c rest h hc
  have := dropWhile_head_not (· = '/') s c rest h
  subst hc
  simp at this

theorem trimEndSlashes_no_trail (s : Str) :
    ∀ c, (trimEndSlashes s).getLast? = some c → c ≠ '/' := by
  intro c h hc
  unfold trimEndSlashes at h
  rw [List.getLast?_reverse] at h
  rcases hd : s.reverse.dropWhile (· = '/') with _ | ⟨a, rest⟩
  · rw [hd] at h; simp at h
  · rw [hd] at h
    simp at h
    have := dropWhile_head_not (· = '/') s.reverse a rest hd
    rw [h, hc] at this
    simp at this

theorem trimStartSlashes_cons_slash (s : Str) :
    trimStartSlashes ('/' :: s) = trimStartSlashes s := by
  simp [trimStartSlashes, List.dropWhile]

theorem trimEndSlashes_append_slash (s : Str) :
    trimEndSlashes (s ++ ['/']) = trimEndSlashes s := by
  simp [trimEndSlashes, List.dropWhile]

/- ### Lemmas about rfindSlash / splitUrl -/

theorem rfindSlash_eq_none_iff (s : Str) :
    rfindSlash s = none ↔ '/' ∉ s := by
  induction s with
  | nil => simp [rfindSlash]
  | cons c rest ih =>
    unfold rfindSlash
    rcases h : rfindSlash rest with _ | i
    · have hrest : '/' ∉ rest := ih.mp h
      by_cases hc : c = '/'
      · subst hc; simp
      · simp [hc, hrest, Ne.symm hc]
    · have hrest : '/' ∈ rest := by
        by_contra hn
        rw [ih.mpr hn] at h
        exact Option.noConfusion h
      simp [hrest]

theorem rfindSlash_spec (s : Str) :
    ∀ i, rfindSlash s = some i →
      s.take i ++ '/' :: s.drop (i + 1) = s ∧ '/' ∉ s.drop (i + 1) := by
  induction s with
  | nil => intro i h; simp [rfindSlash] at h
  | cons c rest ih =>
    intro i h
    unfold rfindSlash at h
    rcases hr : rfindSlash rest with _ | j
    · rw [hr] at h
      by_cases hc : c = '/'
      · subst hc
        simp at h
        subst h
        have : '/' ∉ rest := (rfindSlash_eq_none_iff rest).mp hr
        simpa using this
      · simp [hc] at h
    · rw [hr] at h
      simp at h
      subst h
      obtain ⟨hrec, hno⟩ := ih j hr
      constructor
      · simpa using hrec
      · simpa using hno

/- ### C10: split_url reconstruction -/

/-- C10: for every URL containing a `'/'`, `split_url` returns
`(base, path)` with `base ++ "/" ++ path = url` and `path` containing
no `'/'` (so `base` is everything before the last slash and `path`
everything after it); for a URL without `'/'` it returns the whole
input as base and an empty path. -/
theorem c10_split_url (url : Str) :
    ('/' ∈ url →
      (splitUrl url).1 ++ '/' :: (splitUrl url).2 = url ∧
      '/' ∉ (splitUrl url).2) ∧
    ('/' ∉ url → splitUrl url = (url, [])) := by
  constructor
  · intro hmem
    rcases h : rfindSlash url with _ | i
    · exact absurd ((rfindSlash_eq_none_iff url).mp h) (by simp [hmem])
    · obtain ⟨hrec, hno⟩ := rfindSlash_spec url i h
      simp [splitUrl, h, hrec, hno]
  · intro hmem
    have : rfindSlash url = none := (rfindSlash_eq_none_iff url).mpr hmem
    simp [splitUrl, this]

/- ### Association-list primitives (model of HashMap / Map) -/

/-- Keys of an association list. -/
def keys {α : Type} (l : List (Str × α)) : List Str := l.map Prod.fst

/-- `HashMap::get` / `Map::get`: first entry with the given key. -/
def lookupAssoc {α : Type} (k : Str) : List (Str × α) → Option α
  | [] => none
  | (k2, v) :: rest => if k2 = k then some v else lookupAssoc k rest

/-- `HashMap::insert` / `Map::insert`: replace the entry with the given
key, or append a new entry. -/
def insertAssoc {α : Type} (k : Str) (v : α) : List (Str × α) → List (Str × α)
  | [] => [(k, v)]
  | (k2, v2) :: rest =>
    if k2 = k then (k, v) :: rest else (k2, v2) :: insertAssoc k v rest

/-- Rust `str::contains(needle)`: substring test. -/
def containsSub (needle hay : Str) : Bool := decide (needle <:+: hay)

/- ### JSON values (model of serde_json::Value) -/

/-- serde_json `Value`.  Numbers in the verified properties are
integers; objects are association lists with unique keys (the
serde_json map invariant). -/
inductive Json where
  | null
  | bool (b : Bool)
  | num (n : Int)
  | str (s : Str)
  | arr (xs : List Json)
  | obj (kvs : List (Str × Json))
deriving Repr

/- ### Query parameter values and string parsing -/

/-- Decimal rendering of an integer, as Rust `i64::to_string`. -/
def intToStr (i : Int) : Str := (toString i).toList

/-- `QueryParamValue` (schema.rs lines 40-47).  A Rust `f64` is
modelled by its display string, the only way the value is consumed. -/
inductive QueryParamValue where
  | string (s : Str)
  | integer (i : Int)
  | float (repr : Str)
  | boolean (b : Bool)
deriving DecidableEq, Repr

/-- `QueryParamValue::to_string` (schema.rs lines 51-58). -/
def QueryParamValue.to_string : QueryParamValue → Str
  | .string s => s
  | .integer i => intToStr i
  | .float r => r
  | .boolean b => if b then str "true" else str "false"

/-- Digits of a decimal numeral folded into a natural number. -/
def digitsToNat (ds : Str) : Nat :=
  ds.foldl (fun a c => a * 10 + (c.toNat - '0'.toNat)) 0

/-- Rust `str::parse::<i64>()`: optional sign, one or more ASCII
digits, value within the i64 range. -/
def parse_i64 (s : Str) : Option Int :=
  let signDigits : Int × Str :=
    match s with
    | '+' :: rest => (1, rest)
    | '-' :: rest => (-1, rest)
    | _ => (1, s)
  let sign := signDigits.1
  let digits := signDigits.2
  if digits.isEmpty then none
  else if digits.all Char.isDigit then
    let v : Int := sign * (digitsToNat digits : Int)
    if -(2 ^ 63) ≤ v ∧ v < 2 ^ 63 then some v else none
  else none

/-- Split a float body at the first exponent marker `e`/`E`. -/
def splitExp : Str → Str × Option Str
  | [] => ([], none)
  | c :: rest =>
    if c = 'e' ∨ c = 'E' then ([], some rest)
    else
      let me := splitExp rest
      (c :: me.1, me.2)

/-- Well-formed exponent part: optional sign, one or more digits. -/
def expOk : Str → Bool
  | [] => false
  | '+' :: ds => !ds.isEmpty && ds.all Char.isDigit
  | '-' :: ds => !ds.isEmpty && ds.all Char.isDigit
  | ds => ds.all Char.isDigit

/-- Well-formed float mantissa: `Digit+ ('.' Digit*)?` or `'.' Digit+`. -/
def mantOk (m : Str) : Bool :=
  let d1 := m.takeWhile Char.isDigit
  match m.dropWhile Char.isDigit with
  | [] => !d1.isEmpty
  | '.' :: d2 => (!d1.isEmpty || !d2.isEmpty) && d2.all Char.isDigit
  | _ => false

/-- Whether Rust `str::parse::<f64>()` succeeds: optional sign, then
`inf`/`infinity`/`nan` (case-insensitive) or a decimal number with
optional fraction and exponent. -/
def parse_f64_ok (s : Str) : Bool :=
  let body : Str :=
    match s with
    | '+' :: r => r
    | '-' :: r => r
    | _ => s
  let lower := body.map Char.toLower
  if lower = str "inf" ∨ lower = str "infinity" ∨ lower = str "nan" then true
  else
    let me := splitExp body
    mantOk me.1 && (match me.2 with | none => true | some ex => expOk ex)

/-- Rust `str::parse::<bool>()`: exactly "true" or "false". -/
def parse_bool (s : Str) : Option Bool :=
  if s = str "true" then some true
  else if s = str "false" then some false
  else none

/-- `SchemaManager::infer_param_type` (schema.rs lines 217-227). -/
def infer_param_type (value : Str) : Str :=
  if (parse_i64 value).isSome then str "i64"
  else if parse_f64_ok value then str "f64"
  else if (parse_bool value).isSome then str "bool"
  else str "String"

/-- `SchemaManager::string_to_param_value` (schema.rs lines 230-240).
The float branch keeps the source string, consistent with the display
string model of `f64`. -/
def string_to_param_value (value : Str) : QueryParamValue :=
  match parse_i64 value with
  | some i => .integer i
  | none =>
    if parse_f64_ok value then .float value
    else
      match parse_bool value with
      | some b => .boolean b
      | none => .string value

/- ### TOML values and schema loading -/

/-- toml `Value`.  A TOML float is modelled by its Rust display
string; `datetime` carries its textual form. -/
inductive Toml where
  | string (s : Str)
  | integer (i : Int)
  | float (repr : Str)
  | boolean (b : Bool)
  | datetime (s : Str)
  | array (xs : List Toml)
  | table (kvs : List (Str × Toml))
deriving Repr

/-- `SchemaManager::toml_value_to_string` (schema.rs lines 206-214):
scalars render to strings, everything else is `None`. -/
def toml_value_to_string : Toml → Option Str
  | .string s => some s
  | .integer i => some (intToStr i)
  | .float r => some r
  | .boolean b => some (if b then str "true" else str "false")
  | _ => none

/-- `FieldDefinition` (schema.rs lines 13-21). -/
structure FieldDefinition where
  name : Str
  type_name : Str
  optional : Bool
deriving DecidableEq, Repr

/-- `QueryParamDefinition` (schema.rs lines 24-37). -/
structure QueryParamDefinition where
  name : Str
  param_type : Str
  default : Option QueryParamValue
  description : Option Str
deriving DecidableEq, Repr

/-- `Schema` (schema.rs lines 62-74); the HashMaps are association
lists. -/
structure Schema where
  name : Str
  fields : List FieldDefinition
  nested_fields : List (Str × Str)
  query_params : List (Str × QueryParamDefinition)
deriving Repr

/-- `SchemaManager` (schema.rs lines 77-81). -/
structure SchemaManager where
  schemas : List (Str × Schema)
deriving Repr

/-- The `query_params` loading loop of
`SchemaManager::load_from_toml_value` (schema.rs lines 173-188): each
entry whose value renders to a string yields a definition with
inferred type and the value as default; other entries are skipped. -/
def loadQueryParamStep (acc : List (Str × QueryParamDefinition))
    (pv : Str × Toml) : List (Str × QueryParamDefinition) :=
  match toml_value_to_string pv.2 with
  | some value_str =>
    insertAssoc pv.1
      { name := pv.1
        param_type := infer_param_type value_str
        default := some (string_to_param_value value_str)
        description := none } acc
  | none => acc

/-- The whole `query_params` loop: fold the step over the table
starting from an empty map. -/
def loadQueryParams (queryTable : List (Str × Toml)) :
    List (Str × QueryParamDefinition) :=
  queryTable.foldl loadQueryParamStep []

/-- The `<name>.schema` parsing block of
`SchemaManager::load_from_toml_value` (schema.rs lines 128-168). -/
def parseSchemaSection (tables : List (Str × Toml)) (name : Str) :
    List FieldDefinition × List (Str × Str) :=
  match lookupAssoc (name ++ str ".schema") tables with
  | some (.table schemaDef) =>
    let fields := schemaDef.filterMap (fun fv =>
      if fv.1 ≠ str "nested_fields" then
        match fv.2 with
        | .string typeStr => some ⟨fv.1, typeStr, false⟩
        | _ => none
      else none)
    let nested :=
      match lookupAssoc (str "nested_fields") schemaDef with
      | some (.table nestedTable) =>
        nestedTable.filterMap (fun fv =>
          match fv.2 with
          | .string typeStr => some (fv.1, typeStr)
          | _ => none)
      | _ => []
    (fields, nested)
  | _ => ([], [])

/-- `SchemaManager::load_from_toml_value` (schema.rs lines 99-203).
The body constructs no error, so the function is total here. -/
def load_from_toml_value (m : SchemaManager) (config : Toml) : SchemaManager :=
  match config with
  | .table tables =>
    tables.foldl
      (fun acc nv =>
        let name := nv.1
        if name = str "types" ∨ name = str "config" then acc
        else if containsSub (str ".query_params") name then acc
        else if containsSub (str ".nested_fields") name then acc
        else if containsSub (str ".schema") name then acc
        else
          match nv.2 with
          | .table _ =>
            let fn := parseSchemaSection tables name
            let query_params :=
              match lookupAssoc (name ++ str ".query_params") tables with
              | some (.table queryTable) => loadQueryParams queryTable
              | _ => []
            { schemas :=
                insertAssoc name
                  { name := name
                    fields := fn.1
                    nested_fields := fn.2
                    query_params := query_params } acc.schemas }
          | _ => acc)
      m
  | _ => m

/- ### Errors, urlencoding, query strings, apply_schema -/

/-- Error values reaching callers; the source carries them as boxed
error strings, modelled as tagged variants. -/
inductive ClientError where
  | schemaNotFound (name : Str)
  | noSchemaManager
  | http (msg : Str)
  | deserialization
deriving DecidableEq, Repr

/-- `urlencoding::encode` on one character: ASCII alphanumerics and
`-`, `_`, `.`, `~` pass through, anything else becomes `%XX` with
uppercase hex (byte-level, faithful for ASCII input). -/
def encodeChar (c : Char) : Str :=
  if c.isAlphanum || c = '-' || c = '_' || c = '.' || c = '~' then [c]
  else
    ['%',
     (if c.toNat / 16 % 16 < 10 then Char.ofNat ('0'.toNat + c.toNat / 16 % 16)
      else Char.ofNat ('A'.toNat + (c.toNat / 16 % 16 - 10))),
     (if c.toNat % 16 < 10 then Char.ofNat ('0'.toNat + c.toNat % 16)
      else Char.ofNat ('A'.toNat + (c.toNat % 16 - 10)))]

/-- `urlencoding::encode` over a string. -/
def urlencode (s : Str) : Str := (s.map encodeChar).flatten

/-- The `query_pairs` vector built by
`SchemaManager::build_query_string` (schema.rs lines 357-377):
caller-supplied declared parameters first, then defaults of declared
parameters the caller did not supply. -/
def buildQueryPairs (schema : Schema) (params : List (Str × Str)) : List Str :=
  (params.filter (fun kv => (lookupAssoc kv.1 schema.query_params).isSome)).map
      (fun kv => kv.1 ++ '=' :: urlencode kv.2) ++
    (schema.query_params.filter
        (fun pd => (lookupAssoc pd.1 params).isNone)).filterMap
      (fun pd => pd.2.default.map
        (fun d => pd.1 ++ '=' :: urlencode d.to_string))

/-- `Vec::join("&")`. -/
def joinAmp : List Str → Str
  | [] => []
  | [p] => p
  | p :: q :: rest => p ++ '&' :: joinAmp (q :: rest)

/-- `SchemaManager::build_query_string` (schema.rs lines 348-385). -/
def SchemaManager.build_query_string (m : SchemaManager) (schema_name : Str)
    (params : List (Str × Str)) : Except ClientError Str :=
  match lookupAssoc schema_name m.schemas with
  | none => .error (.schemaNotFound schema_name)
  | some schema =>
    let pairs := buildQueryPairs schema params
    if pairs.isEmpty then .ok []
    else .ok ('?' :: joinAmp pairs)

/-- `SchemaManager::get_schema` (schema.rs lines 293-295). -/
def SchemaManager.get_schema (m : SchemaManager) (name : Str) : Option Schema :=
  lookupAssoc name m.schemas

/-- `SchemaManager::apply_schema` (schema.rs lines 303-345): fail when
the schema is unknown; copy every key of an object into a fresh map;
pass non-objects through unchanged.  (The `data_to_process` selection
in the source returns `data` in every branch.) -/
def SchemaManager.apply_schema (m : SchemaManager) (schema_name : Str)
    (data : Json) : Except ClientError Json :=
  match lookupAssoc schema_name m.schemas with
  | none => .error (.schemaNotFound schema_name)
  | some _ =>
    match data with
    | .obj kvs =>
      .ok (.obj (kvs.foldl (fun acc kv => insertAssoc kv.1 kv.2 acc) []))
    | other => .ok other

/- ### Generic REST client (rest_client.rs) -/

/-- The HTTP layer: a GET of a URL either yields a JSON body or a
transport error.  Passed explicitly so that theorems quantify over
every possible remote behaviour. -/
abbrev Fetch := Str → Except ClientError Json

/-- `RESTClient` (rest_client.rs lines 18-22); the reqwest handle is
not modelled — HTTP is the explicit `Fetch` oracle. -/
structure RESTClient where
  base_url : Str
  schema_manager : Option SchemaManager

/-- `RESTClient::new` (rest_client.rs lines 26-32): no schema manager. -/
def RESTClient.new (base_url : Str) : RESTClient := ⟨base_url, none⟩

/-- `RESTClient::with_schemas` (rest_client.rs lines 44-50). -/
def RESTClient.with_schemas (base_url : Str) (sm : SchemaManager) : RESTClient :=
  ⟨base_url, some sm⟩

/-- `RESTClient::build_url` applied to a client value. -/
def RESTClient.build_url (c : RESTClient) (endpoint : Str) : Str :=
  restBuildUrl c.base_url endpoint

/-- `RESTClient::get_json` (rest_client.rs lines 77-81): result plus
the list of URLs actually fetched. -/
def RESTClient.get_json (c : RESTClient) (fetch : Fetch) (endpoint : Str) :
    Except ClientError Json × List Str :=
  let url := c.build_url endpoint
  (fetch url, [url])

/-- `RESTClient::get_with_schema` (rest_client.rs lines 84-95). -/
def RESTClient.get_with_schema (c : RESTClient) (fetch : Fetch)
    (endpoint schema_name : Str) : Except ClientError Json × List Str :=
  match c.schema_manager with
  | some sm =>
    let gj := c.get_json fetch endpoint
    match gj.1 with
    | .ok json_data => (sm.apply_schema schema_name json_data, gj.2)
    | .error e => (.error e, gj.2)
  | none => (.error .noSchemaManager, [])

/-- `RESTClient::get_with_params` (rest_client.rs lines 98-115); the
target type's serde deserializer is the `decT` parameter. -/
def RESTClient.get_with_params {α : Type} (c : RESTClient) (fetch : Fetch)
    (decT : Json → Option α) (endpoint schema_name : Str)
    (params : List (Str × Str)) : Except ClientError α × List Str :=
  match c.schema_manager with
  | some sm =>
    match sm.build_query_string schema_name params with
    | .error e => (.error e, [])
    | .ok query_string =>
      let url := c.build_url endpoint ++ query_string
      match fetch url with
      | .error e => (.error e, [url])
      | .ok j =>
        match decT j with
        | some t => (.ok t, [url])
        | none => (.error .deserialization, [url])
  | none => (.error .noSchemaManager, [])

/-- `RESTClient::get_with_params_and_schema` (rest_client.rs lines
118-133). -/
def RESTClient.get_with_params_and_schema (c : RESTClient) (fetch : Fetch)
    (endpoint schema_name : Str) (params : List (Str × Str)) :
    Except ClientError Json × List Str :=
  match c.schema_manager with
  | some sm =>
    match sm.build_query_string schema_name params with
    | .error e => (.error e, [])
    | .ok query_string =>
      let url := c.build_url endpoint ++ query_string
      match fetch url with
      | .error e => (.error e, [url])
      | .ok json_data => (sm.apply_schema schema_name json_data, [url])
  | none => (.error .noSchemaManager, [])

/- ### Paginated response types -/

/-- `Paginated<T>` (endpoints/paginated.rs lines 3-9).  `count: u32`
is a bounded natural. -/
structure Paginated (α : Type) where
  count : Nat
  next : Option Str
  previous : Option Str
  results : List α
deriving Repr

/-- `PaginatedResponse<T>` (rest_client.rs lines 9-15 and, duplicated
verbatim, client.rs lines 8-14). -/
structure PaginatedResponse (α : Type) where
  count : Nat
  next : Option Str
  previous : Option Str
  results : List α
deriving Repr

/-- serde deserialization of a `u32` field value. -/
def decodeU32 : Json → Option Nat
  | .num n => if 0 ≤ n ∧ n < 2 ^ 32 then some n.toNat else none
  | _ => none

/-- serde deserialization of an `Option<String>` field: an absent key
or JSON `null` gives `None`; a string gives `Some`; anything else is
an error. -/
def decodeOptString : Option Json → Option (Option Str)
  | none => some none
  | some .null => some none
  | some (.str s) => some (some s)
  | some _ => none

/-- serde deserialization of a `Vec<T>` field value. -/
def decodeVec {α : Type} (decT : Json → Option α) : Json → Option (List α)
  | .arr xs => xs.mapM decT
  | _ => none

/-- Derived serde `Deserialize` for `Paginated<T>`: required `count`
and `results`, optional-by-type `next`/`previous`. -/
def Paginated.deserialize {α : Type} (decT : Json → Option α) :
    Json → Option (Paginated α)
  | .obj kvs => do
    let count ← (lookupAssoc (str "count") kvs).bind decodeU32
    let next ← decodeOptString (lookupAssoc (str "next") kvs)
    let previous ← decodeOptString (lookupAssoc (str "previous") kvs)
    let results ← (lookupAssoc (str "results") kvs).bind (decodeVec decT)
    some ⟨count, next, previous, results⟩
  | _ => none

/-- Derived serde `Deserialize` for `PaginatedResponse<T>` (the same
derive expansion as for `Paginated<T>`). -/
def PaginatedResponse.deserialize {α : Type} (decT : Json → Option α) :
    Json → Option (PaginatedResponse α)
  | .obj kvs => do
    let count ← (lookupAssoc (str "count") kvs).bind decodeU32
    let next ← decodeOptString (lookupAssoc (str "next") kvs)
    let previous ← decodeOptString (lookupAssoc (str "previous") kvs)
    let results ← (lookupAssoc (str "results") kvs).bind (decodeVec decT)
    some ⟨count, next, previous, results⟩
  | _ => none

/- ### Executor (executor.rs) -/

/-- `EndpointConfig` (executor.rs lines 15-27). -/
structure EndpointConfig where
  name : Str
  url : Str
  enabled : Bool
  schema_name : Str
  query_params : List (Str × Str)

/-- Rust `format!("{:<w}", s)`: pad on the right with spaces to width
`w` (never truncates). -/
def padTo (w : Nat) (s : Str) : Str := s ++ List.replicate (w - s.length) ' '

/-- The title truncation of `APIExecutor::display_as_table`
(executor.rs lines 358-362): titles longer than 27 characters become
their first 27 characters followed by "...". -/
def truncateTitle (title : Str) : Str :=
  if title.length > 27 then title.take 27 ++ str "..." else title

/-- The published-field slice of `APIExecutor::display_as_table`
(executor.rs line 368): `&published[..min(20, published.len())]`. -/
def truncatePublished (published : Str) : Str :=
  published.take (min 20 published.length)

/-- One data row of `APIExecutor::display_as_table` (executor.rs lines
364-369): `"  | {:<30} | {:<20} | {:<20} |"` applied to the truncated
title, the news site and the sliced published field. -/
def tableRow (title news_site published : Str) : Str :=
  str "  | " ++ padTo 30 (truncateTitle title) ++ str " | " ++
    padTo 20 news_site ++ str " | " ++
    padTo 20 (truncatePublished published) ++ str " |"

/-- Field extraction for a table cell (executor.rs lines 344-355):
`get(key).and_then(as_str).unwrap_or("N/A")`. -/
def jsonFieldStr (kvs : List (Str × Json)) (key : Str) : Str :=
  match lookupAssoc key kvs with
  | some (.str s) => s
  | _ => str "N/A"

/-- Result and console output of one executor step: the `Ok`/`Err`
value, the stdout lines, and the stderr entries (endpoint name paired
with the logged error). -/
structure ExecLog where
  result : Except ClientError Unit
  out : List Str
  err : List (Str × ClientError)

/-- The stdout line `"Fetching data from: {name} ({url})"` printed at
the start of `APIExecutor::execute_endpoint` (executor.rs line 187). -/
def fetchingLine (e : EndpointConfig) : Str :=
  str "Fetching data from: " ++ e.name ++ str " (" ++ e.url ++ str ")"

/-- The request outcome of one endpoint inside
`APIExecutor::execute_endpoint` (executor.rs lines 190-203): split the
URL, build a schema-aware client scoped to the base, fetch with
schema-resolved query parameters. -/
def endpointOutcome (sm : SchemaManager) (fetch : Fetch)
    (e : EndpointConfig) : Except ClientError Json :=
  let bp := splitUrl e.url
  ((RESTClient.with_schemas bp.1 sm).get_with_params_and_schema fetch bp.2
    e.schema_name e.query_params).1

/-- `APIExecutor::execute_endpoint` (executor.rs lines 183-214).  A
request failure is caught by the `match`, written to stderr and
converted to `Ok`.  Displaying is a pure formatting function
(`display_results` never returns `Err` on a `Value`), passed as the
`display` parameter. -/
def executeEndpoint (sm : SchemaManager) (fetch : Fetch)
    (display : EndpointConfig → Json → List Str) (e : EndpointConfig) :
    ExecLog :=
  match endpointOutcome sm fetch e with
  | .ok data => ⟨.ok (), fetchingLine e :: display e data, []⟩
  | .error err => ⟨.ok (), [fetchingLine e], [(e.name, err)]⟩

/-- `APIExecutor::execute_all` (executor.rs lines 170-180): run every
enabled endpoint in order, propagating an `Err` from
`execute_endpoint` via `?`. -/
def executeAll (sm : SchemaManager) (fetch : Fetch)
    (display : EndpointConfig → Json → List Str) :
    List EndpointConfig → ExecLog
  | [] => ⟨.ok (), [], []⟩
  | e :: rest =>
    if e.enabled then
      let r := executeEndpoint sm fetch display e
      match r.result with
      | .error err => ⟨.error err, r.out, r.err⟩
      | .ok () =>
        let rr := executeAll sm fetch display rest
        ⟨rr.result, r.out ++ rr.out, r.err ++ rr.err⟩
    else executeAll sm fetch display rest

/- ### C1: URL building -/

/-- C1 counterexample: `SpaceDevsClient::build_url` keeps the base URL
unmodified, so a base with a trailing slash yields a doubled slash:
base "http://x/v1/" with endpoint "/articles" gives
"http://x/v1//articles", not "http://x/v1/articles". -/
theorem c1_typed_build_url_counterexample :
    spaceDevsBuildUrl (str "http://x/v1/") (str "/articles") =
      str "http://x/v1//articles" ∧
    spaceDevsBuildUrl (str "http://x/v1/") (str "/articles") ≠
      str "http://x/v1/articles" := by
  constructor
  · decide
  · decide

/-- C1 (amended): the generic REST client's `build_url` produces the
trimmed base and trimmed endpoint joined by exactly one separating
`'/'` (the part before the separator never ends in `'/'` and the part
after never starts with `'/'`), is invariant under a trailing slash on
the base and a leading slash on the endpoint, and maps base
"http://x/v1/" with endpoint "/articles" to "http://x/v1/articles".
The typed client's `build_url` strips only the endpoint's leading
slashes, leaving the base unmodified. -/
theorem c1_build_url (base endpoint : Str) :
    restBuildUrl (base ++ ['/']) endpoint = restBuildUrl base endpoint ∧
    restBuildUrl base ('/' :: endpoint) = restBuildUrl base endpoint ∧
    (∃ B P, restBuildUrl base endpoint = B ++ '/' :: P ∧
      (∀ c, B.getLast? = some c → c ≠ '/') ∧
      (∀ c rest, P = c :: rest → c ≠ '/')) ∧
    spaceDevsBuildUrl base ('/' :: endpoint) = spaceDevsBuildUrl base endpoint ∧
    restBuildUrl (str "http://x/v1/") (str "/articles") = str "http://x/v1/articles" := by
  refine ⟨?_, ?_,
    ⟨trimEndSlashes base, trimStartSlashes endpoint, rfl,
      trimEndSlashes_no_trail base, trimStartSlashes_no_lead endpoint⟩,
    ?_, by decide⟩
  · simp [restBuildUrl, trimEndSlashes_append_slash]
  · simp [restBuildUrl, trimStartSlashes_cons_slash]
  · simp [spaceDevsBuildUrl, trimStartSlashes_cons_slash]

/-- C1 witness: the amended theorem evaluated at a concrete base and
endpoint. -/
theorem c1_build_url_witness :
    restBuildUrl (str "http://x/v1" ++ ['/']) (str "articles") =
      restBuildUrl (str "http://x/v1") (str "articles") :=
  (c1_build_url (str "http://x/v1") (str "articles")).1

/-- C10 witness: evaluation at the concrete URL
"https://api.spaceflightnewsapi.net/v4/articles". -/
theorem c10_split_url_witness :
    '/' ∈ str "http://x/v1/articles" ∧
    (splitUrl (str "http://x/v1/articles")).1 ++
      '/' :: (splitUrl (str "http://x/v1/articles")).2 =
      str "http://x/v1/articles" ∧
    '/' ∉ (splitUrl (str "http://x/v1/articles")).2 := by
  have h := (c10_split_url (str "http://x/v1/articles")).1 (by decide)
  exact ⟨by decide, h.1, h.2⟩

/- ### Association-list lemmas -/

theorem lookupAssoc_eq_none_iff {α : Type} (k : Str) (l : List (Str × α)) :
    lookupAssoc k l = none ↔ ∀ p ∈ l, p.1 ≠ k := by
  induction l with
  | nil => simp [lookupAssoc]
  | cons q rest ih =>
    cases q with
    | mk k2 v =>
      by_cases h : k2 = k
      · subst h
        unfold lookupAssoc
        rw [if_pos rfl]
        constructor
        · intro hsome
          exact absurd hsome (by simp)
        · intro hall
          exact absurd rfl (hall (k2, v) (List.mem_cons_self _ _))
      · simp [lookupAssoc, h, ih]

theorem lookupAssoc_isSome_of_mem {α : Type} {l : List (Str × α)}
    {p : Str × α} (h : p ∈ l) : (lookupAssoc p.1 l).isSome := by
  induction l with
  | nil => simp at h
  | cons q rest ih =>
    cases q with
    | mk k2 v =>
      rcases List.mem_cons.mp h with he | hmem
      · subst he
        simp [lookupAssoc]
      · by_cases hk : k2 = p.1
        · simp [lookupAssoc, hk]
        · simp [lookupAssoc, hk]
          exact ih hmem

@[simp] theorem keys_nil {α : Type} : keys ([] : List (Str × α)) = [] := rfl

@[simp] theorem keys_cons {α : Type} (p : Str × α) (l : List (Str × α)) :
    keys (p :: l) = p.1 :: keys l := rfl

theorem keys_append {α : Type} (l1 l2 : List (Str × α)) :
    keys (l1 ++ l2) = keys l1 ++ keys l2 := by
  simp [keys]

theorem lookupAssoc_insertAssoc_self {α : Type} (k : Str) (v : α)
    (l : List (Str × α)) : lookupAssoc k (insertAssoc k v l) = some v := by
  induction l with
  | nil => simp [insertAssoc, lookupAssoc]
  | cons q rest ih =>
    cases q with
    | mk k2 v2 =>
      by_cases h : k2 = k
      · subst h
        simp [insertAssoc, lookupAssoc]
      · simp [insertAssoc, lookupAssoc, h, ih]

theorem lookupAssoc_insertAssoc_ne {α : Type} {k k2 : Str} (v : α)
    (l : List (Str × α)) (h : k2 ≠ k) :
    lookupAssoc k (insertAssoc k2 v l) = lookupAssoc k l := by
  induction l with
  | nil => simp [insertAssoc, lookupAssoc, h]
  | cons q rest ih =>
    cases q with
    | mk k3 v3 =>
      by_cases h3 : k3 = k2
      · subst h3
        simp [insertAssoc, lookupAssoc, h]
      · by_cases hk : k3 = k
        · subst hk
          simp [insertAssoc, lookupAssoc, h3]
        · simp [insertAssoc, lookupAssoc, h3, hk, ih]

theorem insertAssoc_eq_append {α : Type} (k : Str) (v : α)
    (l : List (Str × α)) (h : k ∉ keys l) :
    insertAssoc k v l = l ++ [(k, v)] := by
  induction l with
  | nil => rfl
  | cons q rest ih =>
    cases q with
    | mk k2 v2 =>
      simp only [keys_cons, List.mem_cons, not_or] at h
      have hne : k2 ≠ k := fun he => h.1 he.symm
      simp [insertAssoc, hne, ih h.2]

theorem keys_insertAssoc_mem {α : Type} (k : Str) (v : α)
    (l : List (Str × α)) (h : k ∈ keys l) :
    keys (insertAssoc k v l) = keys l := by
  induction l with
  | nil => simp at h
  | cons q rest ih =>
    cases q with
    | mk k2 v2 =>
      by_cases h2 : k2 = k
      · subst h2
        simp [insertAssoc]
      · simp only [keys_cons, List.mem_cons] at h
        rcases h with he | hmem
        · exact absurd he.symm h2
        · simp [insertAssoc, h2, ih hmem]

theorem nodup_keys_insertAssoc {α : Type} (k : Str) (v : α)
    (l : List (Str × α)) (h : (keys l).Nodup) :
    (keys (insertAssoc k v l)).Nodup := by
  by_cases hm : k ∈ keys l
  · rw [keys_insertAssoc_mem k v l hm]
    exact h
  · rw [insertAssoc_eq_append k v l hm, keys_append]
    simp only [keys_cons, keys_nil]
    rw [List.nodup_append]
    exact ⟨h, List.nodup_singleton k, by simpa [List.disjoint_singleton] using hm⟩

theorem nodup_keys_foldl_insert {α : Type} (kvs : List (Str × α)) :
    ∀ acc : List (Str × α), (keys acc).Nodup →
      (keys (kvs.foldl (fun a kv => insertAssoc kv.1 kv.2 a) acc)).Nodup := by
  induction kvs with
  | nil =>
    intro acc h
    simpa using h
  | cons q rest ih =>
    intro acc h
    simp only [List.foldl_cons]
    exact ih _ (nodup_keys_insertAssoc q.1 q.2 acc h)

theorem foldl_insert_eq_append {α : Type} (kvs : List (Str × α)) :
    ∀ acc : List (Str × α), (keys kvs).Nodup →
      (∀ p ∈ kvs, p.1 ∉ keys acc) →
      kvs.foldl (fun a kv => insertAssoc kv.1 kv.2 a) acc = acc ++ kvs := by
  induction kvs with
  | nil =>
    intro acc _ _
    simp
  | cons q rest ih =>
    intro acc hnodup hfresh
    simp only [List.foldl_cons]
    have hq : q.1 ∉ keys acc := hfresh q (List.mem_cons_self _ _)
    rw [insertAssoc_eq_append q.1 q.2 acc hq]
    have hnd := List.nodup_cons.mp (by simpa using hnodup)
    have hrest : ∀ p ∈ rest, p.1 ∉ keys (acc ++ [(q.1, q.2)]) := by
      intro p hp
      rw [keys_append]
      simp only [keys_cons, keys_nil, List.mem_append, List.mem_cons,
        List.not_mem_nil, or_false, not_or]
      refine ⟨hfresh p (List.mem_cons_of_mem _ hp), ?_⟩
      intro he
      exact hnd.1 (he ▸ List.mem_map_of_mem Prod.fst hp)
    rw [ih _ hnd.2 hrest]
    simp

/- ### C5: apply_schema -/

/-- C5: `apply_schema` fails with the not-found error exactly when the
name is not a loaded schema; a JSON object (with the serde_json
unique-key invariant) is returned with identical key set and values;
non-object inputs are returned unchanged; and a successful application
is idempotent. -/
theorem c5_apply_schema (m : SchemaManager) (name : Str) (x : Json) :
    (m.apply_schema name x = .error (.schemaNotFound name) ↔
      lookupAssoc name m.schemas = none) ∧
    (∀ kvs, x = .obj kvs → (keys kvs).Nodup →
      (lookupAssoc name m.schemas).isSome → m.apply_schema name x = .ok x) ∧
    ((∀ kvs, x ≠ .obj kvs) → (lookupAssoc name m.schemas).isSome →
      m.apply_schema name x = .ok x) ∧
    (∀ y, m.apply_schema name x = .ok y → m.apply_schema name y = .ok y) := by
  have hok : ∀ kvs : List (Str × Json), (keys kvs).Nodup →
      kvs.foldl (fun acc kv => insertAssoc kv.1 kv.2 acc) [] = kvs := by
    intro kvs hnd
    have h := foldl_insert_eq_append kvs [] hnd (by intro p _; simp)
    simpa using h
  rcases hl : lookupAssoc name m.schemas with _ | schema
  · refine ⟨?_, ?_, ?_, ?_⟩
    · simp [SchemaManager.apply_schema, hl]
    · intro kvs _ _ hsome
      simp at hsome
    · intro _ hsome
      simp at hsome
    · intro y hy
      cases x <;> simp [SchemaManager.apply_schema, hl] at hy
  · refine ⟨?_, ?_, ?_, ?_⟩
    · constructor
      · intro h
        cases x <;> simp [SchemaManager.apply_schema, hl] at h
      · intro h
        exact Option.noConfusion h
    · intro kvs hx hnd _
      subst hx
      simp [SchemaManager.apply_schema, hl, hok kvs hnd]
    · intro hne _
      cases x with
      | obj kvs => exact absurd rfl (hne kvs)
      | null => simp [SchemaManager.apply_schema, hl]
      | bool b => simp [SchemaManager.apply_schema, hl]
      | num n => simp [SchemaManager.apply_schema, hl]
      | str s => simp [SchemaManager.apply_schema, hl]
      | arr xs => simp [SchemaManager.apply_schema, hl]
    · intro y hy
      cases x with
      | obj kvs =>
        simp only [SchemaManager.apply_schema, hl] at hy
        have hy2 : Json.obj
            (kvs.foldl (fun acc kv => insertAssoc kv.1 kv.2 acc) []) = y := by
          cases hy
          rfl
        have hnd : (keys
            (kvs.foldl (fun acc kv => insertAssoc kv.1 kv.2 acc) [])).Nodup :=
          nodup_keys_foldl_insert kvs [] (by simp)
        rw [← hy2]
        simp [SchemaManager.apply_schema, hl, hok _ hnd]
      | null =>
        simp only [SchemaManager.apply_schema, hl] at hy ⊢
        cases hy
        rfl
      | bool b =>
        simp only [SchemaManager.apply_schema, hl] at hy ⊢
        cases hy
        rfl
      | num n =>
        simp only [SchemaManager.apply_schema, hl] at hy ⊢
        cases hy
        rfl
      | str s =>
        simp only [SchemaManager.apply_schema, hl] at hy ⊢
        cases hy
        rfl
      | arr xs =>
        simp only [SchemaManager.apply_schema, hl] at hy ⊢
        cases hy
        rfl

/-- C5 witness: a concrete successful, identity application on an
object, and the not-found failure on an unknown name. -/
theorem c5_apply_schema_witness :
    SchemaManager.apply_schema
        ⟨[(str "articles",
           { name := str "articles", fields := [], nested_fields := [],
             query_params := [] })]⟩
        (str "articles") (.obj [(str "title", .str (str "T"))]) =
      .ok (.obj [(str "title", .str (str "T"))]) :=
  (c5_apply_schema
      ⟨[(str "articles",
         { name := str "articles", fields := [], nested_fields := [],
           query_params := [] })]⟩ (str "articles")
      (.obj [(str "title", .str (str "T"))])).2.1
    [(str "title", .str (str "T"))] rfl (by simp) (by decide)

/- ### C3 and C4: query string building -/

/-- The example schema of the specification: declared parameters
`limit` (default 10) and `ordering` (no default). -/
def exampleSchema : Schema where
  name := str "articles"
  fields := []
  nested_fields := []
  query_params :=
    [(str "limit",
      { name := str "limit", param_type := str "i64",
        default := some (.integer 10), description := none }),
     (str "ordering",
      { name := str "ordering", param_type := str "String",
        default := none, description := none })]

/-- C3: the pairs built by `build_query_string` are, as a set, exactly
`key=urlencode(value)` for the caller-supplied keys declared on the
schema plus `key=urlencode(default)` for declared parameters the
caller omitted that carry a default; on the example schema
(`limit` default 10, `ordering` no default) with caller parameter
`ordering = "-published_at"`, the result is exactly the pairs
`limit=10` and `ordering=-published_at`. -/
theorem c3_build_query_string (schema : Schema) (params : List (Str × Str)) :
    (∀ pair, pair ∈ buildQueryPairs schema params ↔
      ((∃ k v, (k, v) ∈ params ∧
          (lookupAssoc k schema.query_params).isSome ∧
          pair = k ++ '=' :: urlencode v) ∨
       (∃ k pd, (k, pd) ∈ schema.query_params ∧
          lookupAssoc k params = none ∧
          ∃ d, pd.default = some d ∧
            pair = k ++ '=' :: urlencode d.to_string))) ∧
    buildQueryPairs exampleSchema [(str "ordering", str "-published_at")] =
      [str "ordering=-published_at", str "limit=10"] ∧
    SchemaManager.build_query_string ⟨[(str "articles", exampleSchema)]⟩
        (str "articles") [(str "ordering", str "-published_at")] =
      .ok (str "?ordering=-published_at&limit=10") := by
  refine ⟨?_, by decide, rfl⟩
  intro pair
  unfold buildQueryPairs
  constructor
  · intro hp
    rcases List.mem_append.mp hp with h | h
    · rcases List.mem_map.mp h with ⟨kv, hkv, rfl⟩
      rcases List.mem_filter.mp hkv with ⟨hmem, hpred⟩
      exact Or.inl ⟨kv.1, kv.2, by simpa using hmem, by simpa using hpred, rfl⟩
    · rcases List.mem_filterMap.mp h with ⟨pd, hpd, hmap⟩
      rcases List.mem_filter.mp hpd with ⟨hmem, hnone⟩
      rcases Option.map_eq_some'.mp hmap with ⟨d, hd, rfl⟩
      exact Or.inr ⟨pd.1, pd.2, by simpa using hmem,
        by simpa [Option.isNone_iff_eq_none] using hnone, d, hd, rfl⟩
  · intro hp
    rcases hp with ⟨k, v, hmem, hsome, rfl⟩ | ⟨k, pd, hmem, hnone, d, hd, rfl⟩
    · exact List.mem_append.mpr (Or.inl (List.mem_map.mpr
        ⟨(k, v), List.mem_filter.mpr ⟨hmem, by simpa using hsome⟩, rfl⟩))
    · exact List.mem_append.mpr (Or.inr (List.mem_filterMap.mpr
        ⟨(k, pd), List.mem_filter.mpr ⟨hmem, by simp [hnone]⟩, by simp [hd]⟩))

/-- C4: every pair emitted by `build_query_string` has a key declared
among the schema's query parameters, and a caller-supplied key absent
from the declared parameters is silently dropped (its presence does
not change the output at all). -/
theorem c4_undeclared_params_dropped (schema : Schema)
    (params : List (Str × Str)) :
    (∀ pair ∈ buildQueryPairs schema params,
      ∃ k rest, pair = k ++ '=' :: rest ∧
        (lookupAssoc k schema.query_params).isSome) ∧
    (∀ k v, lookupAssoc k schema.query_params = none →
      buildQueryPairs schema ((k, v) :: params) =
        buildQueryPairs schema params) := by
  constructor
  · intro pair hp
    rcases List.mem_append.mp hp with h | h
    · rcases List.mem_map.mp h with ⟨kv, hkv, rfl⟩
      rcases List.mem_filter.mp hkv with ⟨_, hpred⟩
      exact ⟨kv.1, urlencode kv.2, rfl, by simpa using hpred⟩
    · rcases List.mem_filterMap.mp h with ⟨pd, hpd, hmap⟩
      rcases List.mem_filter.mp hpd with ⟨hmem, _⟩
      rcases Option.map_eq_some'.mp hmap with ⟨d, hd, rfl⟩
      exact ⟨pd.1, urlencode d.to_string, rfl, lookupAssoc_isSome_of_mem hmem⟩
  · intro k v hnone
    unfold buildQueryPairs
    have hfilters : ∀ pd ∈ schema.query_params,
        (lookupAssoc pd.1 ((k, v) :: params)).isNone =
          (lookupAssoc pd.1 params).isNone := by
      intro pd hpd
      have hne : pd.1 ≠ k := (lookupAssoc_eq_none_iff k _).mp hnone pd hpd
      have hne2 : k ≠ pd.1 := fun h => hne h.symm
      simp [lookupAssoc, hne2]
    rw [List.filter_congr hfilters]
    congr 1
    simp [List.filter_cons, hnone]

/-- C3 witness: the concrete pair list produced on the example schema. -/
theorem c3_build_query_string_witness :
    buildQueryPairs exampleSchema [(str "ordering", str "-published_at")] =
      [str "ordering=-published_at", str "limit=10"] :=
  (c3_build_query_string exampleSchema
    [(str "ordering", str "-published_at")]).2.1

/-- C4 witness: adding an undeclared caller parameter `bogus` leaves
the produced pairs unchanged. -/
theorem c4_undeclared_params_dropped_witness :
    buildQueryPairs exampleSchema
        [(str "bogus", str "1"), (str "ordering", str "-published_at")] =
      buildQueryPairs exampleSchema [(str "ordering", str "-published_at")] :=
  (c4_undeclared_params_dropped exampleSchema
    [(str "ordering", str "-published_at")]).2 (str "bogus") (str "1")
    (by decide)

/-- C6: every schema-dependent operation of the generic REST client
(get_with_schema, get_with_params, get_with_params_and_schema) fails
with the no-schema-manager error when the client was constructed
without a schema manager, and performs no fetch (the fetched-URL log
is empty), for every endpoint, schema name, parameter map and remote
behaviour. -/
theorem c6_no_schema_manager {α : Type} (base endpoint schema_name : Str)
    (fetch : Fetch) (decT : Json → Option α) (params : List (Str × Str)) :
    (RESTClient.new base).get_with_schema fetch endpoint schema_name =
      (.error .noSchemaManager, []) ∧
    (RESTClient.new base).get_with_params fetch decT endpoint schema_name params =
      (.error .noSchemaManager, []) ∧
    (RESTClient.new base).get_with_params_and_schema fetch endpoint schema_name
        params =
      (.error .noSchemaManager, []) :=
  ⟨rfl, rfl, rfl⟩

/- ### C9: paginated deserialization -/

/-- C9: deserializing a page document with `count = 3` and
`results = [a, b, c]` (and no `next`/`previous` keys) succeeds with a
3-element results sequence and `next = previous = none`, for both
paginated response types. -/
theorem c9_paginated_deserialize {α : Type} (decT : Json → Option α)
    (a b c : Json) (a2 b2 c2 : α)
    (ha : decT a = some a2) (hb : decT b = some b2) (hc : decT c = some c2) :
    Paginated.deserialize decT
        (.obj [(str "count", .num 3), (str "results", .arr [a, b, c])]) =
      some ⟨3, none, none, [a2, b2, c2]⟩ ∧
    PaginatedResponse.deserialize decT
        (.obj [(str "count", .num 3), (str "results", .arr [a, b, c])]) =
      some ⟨3, none, none, [a2, b2, c2]⟩ ∧
    ([a2, b2, c2] : List α).length = 3 := by
  have hmap : [a, b, c].mapM decT = some [a2, b2, c2] := by
    simp [List.mapM, List.mapM.loop, ha, hb, hc]
  refine ⟨?_, ?_, rfl⟩
  · show ([a, b, c].mapM decT).bind
        (fun results => some (Paginated.mk 3 none none results)) =
      some ⟨3, none, none, [a2, b2, c2]⟩
    rw [hmap]
    rfl
  · show ([a, b, c].mapM decT).bind
        (fun results => some (PaginatedResponse.mk 3 none none results)) =
      some ⟨3, none, none, [a2, b2, c2]⟩
    rw [hmap]
    rfl

/-- C9 witness: concrete evaluation with `T = Value`
(`Vec<serde_json::Value>` results, identity deserializer). -/
theorem c9_paginated_deserialize_witness :
    Paginated.deserialize (fun j => some j)
        (.obj [(str "count", .num 3),
               (str "results", .arr [Json.null, Json.bool true, Json.num 7])]) =
      some ⟨3, none, none, [Json.null, Json.bool true, Json.num 7]⟩ :=
  (c9_paginated_deserialize (fun j => some j) Json.null (Json.bool true)
    (Json.num 7) Json.null (Json.bool true) (Json.num 7) rfl rfl rfl).1

/- ### C8: table rendering widths -/

theorem padTo_length (w : Nat) (s : Str) (h : s.length ≤ w) :
    (padTo w s).length = w := by
  simp [padTo]
  omega

theorem truncateTitle_length_le (title : Str) :
    (truncateTitle title).length ≤ 30 := by
  unfold truncateTitle
  split
  · simp [str]
  · omega

/-- C8: titles longer than 27 characters render as their first 27
characters followed by the 3-character marker "..." (so a 40-character
title renders at width 30), the published field is cut to at most 20
characters, and the rendered title and published cells have the fixed
widths 30 and 20 for every input; with a news-site cell within its
column the whole row has constant width 82. -/
theorem c8_table_truncation (title published : Str) :
    (title.length > 27 → truncateTitle title = title.take 27 ++ str "...") ∧
    (title.length = 40 → (truncateTitle title).length = 30) ∧
    (padTo 30 (truncateTitle title)).length = 30 ∧
    (truncatePublished published).length = min 20 published.length ∧
    (padTo 20 (truncatePublished published)).length = 20 ∧
    (∀ news_site : Str, news_site.length ≤ 20 →
      (tableRow title news_site published).length = 82) := by
  have hle := truncateTitle_length_le title
  have hpub : (truncatePublished published).length = min 20 published.length := by
    simp [truncatePublished]
  refine ⟨?_, ?_, ?_, hpub, ?_, ?_⟩
  · intro h
    simp [truncateTitle, h]
  · intro h
    simp [truncateTitle, h, str]
  · exact padTo_length 30 _ hle
  · exact padTo_length 20 _ (by omega)
  · intro news_site hns
    simp [tableRow, str, padTo_length 30 _ hle,
      padTo_length 20 news_site hns, padTo_length 20 _ (by omega : (truncatePublished published).length ≤ 20)]

/-- C8 witness: a concrete 40-character title renders as its first 27
characters plus "..." in a width-30 cell. -/
theorem c8_table_truncation_witness :
    truncateTitle (List.replicate 40 'a') =
      (List.replicate 40 'a').take 27 ++ str "..." ∧
    (truncateTitle (List.replicate 40 'a')).length = 30 := by
  have h := c8_table_truncation (List.replicate 40 'a') (str "2025-01-01T00:00:00Z")
  exact ⟨h.1 (by simp), h.2.1 (by simp)⟩

/- ### C7: executor failure tolerance -/

theorem executeEndpoint_result (sm : SchemaManager) (fetch : Fetch)
    (display : EndpointConfig → Json → List Str) (e : EndpointConfig) :
    (executeEndpoint sm fetch display e).result = .ok () := by
  unfold executeEndpoint
  cases endpointOutcome sm fetch e <;> rfl

/-- C7: for every endpoint list and every remote behaviour,
`execute_all` returns success; every enabled endpoint is executed (its
"Fetching data from" line is printed) even when other endpoints fail;
and an enabled endpoint whose request pipeline fails has its error
written to the error stream instead of aborting the run. -/
theorem c7_execute_all (sm : SchemaManager) (fetch : Fetch)
    (display : EndpointConfig → Json → List Str) (eps : List EndpointConfig) :
    (executeAll sm fetch display eps).result = .ok () ∧
    (∀ e ∈ eps, e.enabled = true →
      fetchingLine e ∈ (executeAll sm fetch display eps).out ∧
      ∀ err, endpointOutcome sm fetch e = .error err →
        (e.name, err) ∈ (executeAll sm fetch display eps).err) := by
  induction eps with
  | nil =>
    refine ⟨rfl, ?_⟩
    intro e he
    simp at he
  | cons e rest ih =>
    by_cases hen : e.enabled
    · cases ho : endpointOutcome sm fetch e with
      | ok data =>
        have hstep : executeAll sm fetch display (e :: rest) =
            ⟨(executeAll sm fetch display rest).result,
             (fetchingLine e :: display e data) ++
               (executeAll sm fetch display rest).out,
             [] ++ (executeAll sm fetch display rest).err⟩ := by
          simp [executeAll, hen, executeEndpoint, ho]
        refine ⟨by rw [hstep]; exact ih.1, ?_⟩
        intro e2 he2 hen2
        rcases List.mem_cons.mp he2 with he2e | he2r
        · subst he2e
          refine ⟨by rw [hstep]; simp, ?_⟩
          intro err herr
          rw [ho] at herr
          exact Except.noConfusion herr
        · obtain ⟨ho2, he2⟩ := ih.2 e2 he2r hen2
          refine ⟨by rw [hstep]; simp; right; right; exact ho2, ?_⟩
          intro err herr
          rw [hstep]
          simpa using he2 err herr
      | error err0 =>
        have hstep : executeAll sm fetch display (e :: rest) =
            ⟨(executeAll sm fetch display rest).result,
             [fetchingLine e] ++ (executeAll sm fetch display rest).out,
             [(e.name, err0)] ++ (executeAll sm fetch display rest).err⟩ := by
          simp [executeAll, hen, executeEndpoint, ho]
        refine ⟨by rw [hstep]; exact ih.1, ?_⟩
        intro e2 he2 hen2
        rcases List.mem_cons.mp he2 with he2e | he2r
        · subst he2e
          refine ⟨by rw [hstep]; simp, ?_⟩
          intro err herr
          rw [ho] at herr
          have herr2 : err0 = err := by
            cases herr
            rfl
          rw [hstep]
          subst herr2
          simp
        · obtain ⟨ho2, he2⟩ := ih.2 e2 he2r hen2
          refine ⟨by rw [hstep]; simp; right; exact ho2, ?_⟩
          intro err herr
          rw [hstep]
          simp
          right
          exact he2 err herr
    · have hstep : executeAll sm fetch display (e :: rest) =
          executeAll sm fetch display rest := by
        simp [executeAll, hen]
      refine ⟨by rw [hstep]; exact ih.1, ?_⟩
      intro e2 he2 hen2
      rcases List.mem_cons.mp he2 with he2e | he2r
      · subst he2e
        exact absurd hen2 hen
      · rw [hstep]
        exact ih.2 e2 he2r hen2

/-- C7 witness: two enabled endpoints against a remote that always
fails: the run still succeeds, both endpoints are attempted, and both
failures are logged to the error stream. -/
theorem c7_execute_all_witness :
    (executeAll ⟨[]⟩ (fun _ => .error (.http (str "boom"))) (fun _ _ => [])
        [⟨str "a", str "http://x/a", true, str "a", []⟩,
         ⟨str "b", str "http://x/b", true, str "b", []⟩]).result = .ok () ∧
    fetchingLine ⟨str "b", str "http://x/b", true, str "b", []⟩ ∈
      (executeAll ⟨[]⟩ (fun _ => .error (.http (str "boom"))) (fun _ _ => [])
        [⟨str "a", str "http://x/a", true, str "a", []⟩,
         ⟨str "b", str "http://x/b", true, str "b", []⟩]).out := by
  have h := c7_execute_all ⟨[]⟩ (fun _ => .error (.http (str "boom")))
    (fun _ _ => [])
    [⟨str "a", str "http://x/a", true, str "a", []⟩,
     ⟨str "b", str "http://x/b", true, str "b", []⟩]
  exact ⟨h.1,
    (h.2 ⟨str "b", str "http://x/b", true, str "b", []⟩ (by simp) rfl).1⟩

/- ### C2: query parameter loading -/

theorem lookup_loadQueryParamStep_not_mem (qt : List (Str × Toml)) :
    ∀ (acc : List (Str × QueryParamDefinition)) (k : Str), k ∉ keys qt →
      lookupAssoc k (qt.foldl loadQueryParamStep acc) = lookupAssoc k acc := by
  induction qt with
  | nil =>
    intro acc k _
    rfl
  | cons q rest ih =>
    intro acc k h
    simp only [keys_cons, List.mem_cons, not_or] at h
    simp only [List.foldl_cons]
    rw [ih _ k h.2]
    unfold loadQueryParamStep
    cases toml_value_to_string q.2 with
    | none => rfl
    | some s =>
      exact lookupAssoc_insertAssoc_ne _ acc (fun he => h.1 he.symm)

theorem lookup_loadQueryParamStep_foldl (qt : List (Str × Toml)) :
    ∀ (acc : List (Str × QueryParamDefinition)) (k : Str) (v : Toml),
      (keys qt).Nodup → (k, v) ∈ qt → lookupAssoc k acc = none →
      lookupAssoc k (qt.foldl loadQueryParamStep acc) =
        (toml_value_to_string v).map (fun value_str =>
          { name := k, param_type := infer_param_type value_str,
            default := some (string_to_param_value value_str),
            description := none }) := by
  induction qt with
  | nil =>
    intro acc k v _ hmem
    simp at hmem
  | cons q rest ih =>
    intro acc k v hnd hmem hacc
    have hnd2 := List.nodup_cons.mp (by simpa using hnd)
    simp only [List.foldl_cons]
    rcases List.mem_cons.mp hmem with he | hmem2
    · have hq1 : q.1 = k := by rw [← he]
      have hq2 : q.2 = v := by rw [← he]
      have hknot : k ∉ keys rest := hq1 ▸ hnd2.1
      rw [lookup_loadQueryParamStep_not_mem rest _ k hknot]
      unfold loadQueryParamStep
      rw [hq1, hq2]
      cases hts : toml_value_to_string v with
      | none => simpa using hacc
      | some s => simp [lookupAssoc_insertAssoc_self]
    · have hne : q.1 ≠ k := by
        intro he
        exact hnd2.1 (he ▸ List.mem_map_of_mem Prod.fst hmem2)
      refine ih _ k v hnd2.2 hmem2 ?_
      unfold loadQueryParamStep
      cases toml_value_to_string q.2 with
      | none => exact hacc
      | some s => rw [lookupAssoc_insertAssoc_ne _ acc hne]; exact hacc

/-- C2 (amended): an entry of a `<name>.query_params` table yields a
query-parameter definition exactly when its value is a bare scalar
(string, integer, float or boolean): that value's rendered string,
parsed as integer, then float, then boolean, else string, gives both
the inferred type and the default.  An entry whose value is a table
(the explicit `type`/`default`/`description` shape), array or datetime
yields no definition at all. -/
theorem c2_query_params_loading (queryTable : List (Str × Toml)) (k : Str)
    (v : Toml) (hnd : (keys queryTable).Nodup) (hmem : (k, v) ∈ queryTable) :
    lookupAssoc k (loadQueryParams queryTable) =
      (toml_value_to_string v).map (fun value_str =>
        { name := k, param_type := infer_param_type value_str,
          default := some (string_to_param_value value_str),
          description := none }) ∧
    (∀ kvs2, v = .table kvs2 →
      lookupAssoc k (loadQueryParams queryTable) = none) := by
  have h := lookup_loadQueryParamStep_foldl queryTable [] k v hnd hmem rfl
  refine ⟨h, ?_⟩
  intro kvs2 hv
  subst hv
  simpa using h

/-- C2 witness: a bare scalar `limit = 10` yields the definition with
inferred type "i64" and default `Integer 10`. -/
theorem c2_query_params_loading_witness :
    lookupAssoc (str "limit")
        (loadQueryParams [(str "limit", Toml.integer 10)]) =
      some { name := str "limit", param_type := str "i64",
             default := some (.integer 10), description := none } := by
  have h := (c2_query_params_loading [(str "limit", Toml.integer 10)]
    (str "limit") (Toml.integer 10) (by simp) (by simp)).1
  rw [h]
  rfl

/-- A configuration whose `articles.query_params` table defines the
parameter `limit` in the table shape, with explicit `type` and
`default` keys. -/
def tableShapeConfig : Toml :=
  .table
    [(str "articles",
      .table [(str "url", .string (str "http://x")),
              (str "enabled", .boolean true)]),
     (str "articles.query_params",
      .table [(str "limit",
        .table [(str "type", .string (str "i64")),
                (str "default", .integer 10)])])]

/-- C2 counterexample: loading `tableShapeConfig` produces the
`articles` schema with an empty query-parameter map — the table-shaped
entry for `limit` (shape (a) of the claim) yields no definition. -/
theorem c2_table_shape_counterexample :
    (load_from_toml_value ⟨[]⟩ tableShapeConfig).schemas =
      [(str "articles",
        { name := str "articles", fields := [], nested_fields := [],
          query_params := [] })] := by
  rfl

end SpaceDevs
